import Mathlib

/-!
Verification of the clustering primitives of `titus/lib1/model/cluster.py`
(`model.cluster.closest`, `closestN`, `randomSeeds`, `kmeansIteration`,
`updateMean`) over a shallow embedding.  Python doubles are embedded as exact
rationals (`ℚ`), fallible operations return `Except String` with the
`PFARuntimeException` message strings of the source, and the cluster record
("required `center` field plus arbitrary caller-defined extra fields") is a
structure with a polymorphic `extra` component.
-/

namespace ModelCluster

/-- A cluster record: the required `center` field plus the caller-defined
extra fields, bundled into one `extra` component of arbitrary type. -/
structure Cluster (α : Type) where
  center : List ℚ
  extra : α
deriving DecidableEq

/-- Modelled from the spec: `titus.util.div` is imported by `cluster.py` but
is not among the sources in scope.  Per the spec, the division policy "fails
explicitly (`DivisionByZero`) rather than producing `NaN`/`Inf` when the
denominator is zero". -/
def div (n d : ℚ) : Except String ℚ :=
  if d = 0 then .error "division by zero" else .ok (n / d)

/-- Insert an indexed value into a value-sorted list, in front of the first
entry whose value is ≥ its own, so that an earlier index wins a tie against
every later one. -/
def insertIdx (p : Nat × ℚ) : List (Nat × ℚ) → List (Nat × ℚ)
  | [] => [p]
  | q :: rest => if p.2 ≤ q.2 then p :: q :: rest else q :: insertIdx p rest

/-- Stable insertion sort of indexed values by value. -/
def sortIdx : List (Nat × ℚ) → List (Nat × ℚ)
  | [] => []
  | p :: rest => insertIdx p (sortIdx rest)

/-- Modelled from the spec: `titus.lib1.array.argLowestN` is imported by
`cluster.py` but is not among the sources in scope.  Per the spec it selects
the indices of the `n` smallest values in ascending order of value with the
first-seen (earliest-index) tie break, the result length being `min n len`
clamped below at zero (a non-positive `n` selects nothing). -/
def argLowestN (xs : List ℚ) (n : Int) : List Nat :=
  ((sortIdx xs.enum).map Prod.fst).take n.toNat

/-- The list of distances from a datum to each cluster center, in cluster
order — the `distances` comprehension both `closest` and `closestN`
compute. -/
def distList (datum : List ℚ) (clusters : List (Cluster α))
    (metric : List ℚ → List ℚ → ℚ) : List ℚ :=
  clusters.map fun x => metric datum x.center

/-- Python's `clusters[i]`, embedded with an explicit (never-taken in these
operations) out-of-range error branch. -/
def getCluster (clusters : List (Cluster α)) (i : Nat) : Except String (Cluster α) :=
  match clusters.get? i with
  | some c => .ok c
  | none => .error "index out of range"

/-- Embeds `model.cluster.closest` (`Closest.__call__`): fail on an empty cluster
list, compute all distances, take the single lowest index.  The unpacking
`index, = ...` of the Python source is embedded with an explicit
(never-taken) error branch. -/
def closest (datum : List ℚ) (clusters : List (Cluster α))
    (metric : List ℚ → List ℚ → ℚ) : Except String (Cluster α) :=
  if clusters.length = 0 then .error "no clusters" else
  match argLowestN (distList datum clusters metric) 1 with
  | [index] => getCluster clusters index
  | _ => .error "cannot unpack"

/-- Embeds `model.cluster.closestN` (`ClosestN.__call__`): compute all distances and
return the clusters at the `n` lowest indices.  The source has no emptiness
check. -/
def closestN (datum : List ℚ) (clusters : List (Cluster α))
    (metric : List ℚ → List ℚ → ℚ) (n : Int) : Except String (List (Cluster α)) :=
  (argLowestN (distList datum clusters metric) n).mapM (getCluster clusters)

/-- Embeds `model.cluster.randomSeeds` (`RandomSeeds.__call__`).  The host's
randomness (`state.rand.shuffle`) is embedded as an explicitly passed
`shuffle` function, as the spec directs for the shared randomness source; the
`list(set(...))` deduplication is embedded as `List.dedup`, whose unspecified
set order is absorbed by the subsequent shuffle.  The Python locals `uniques`
(`data.dedup`), `sizes` (`(uniques.map List.length).dedup`, the set of vector
lengths) and `selected` are inlined. -/
def randomSeeds (data : List (List ℚ)) (k : Int)
    (shuffle : List (List ℚ) → List (List ℚ))
    (newCluster : Nat → List ℚ → Cluster α) : Except String (List (Cluster α)) :=
  if k ≤ 0 then .error "k must be greater than zero" else
  if ((data.dedup).length : Int) < k then .error "not enough unique points" else
  if ((data.dedup.map List.length).dedup).length ≠ 1 then
    .error "dimensions of vectors do not match"
  else
    .ok (((shuffle data.dedup).take k.toNat).enum.map fun p => newCluster p.1 p.2)

/-- The inner assignment loop of `KMeansIteration.__call__`: scan the
remaining centers, keeping the index of the strictly smallest distance seen
so far (`bestCenter is None` makes the first step always take its index). -/
def scanBest (metric : List ℚ → List ℚ → ℚ) (datum : List ℚ) :
    List (List ℚ) → Nat → Nat → Option ℚ → Nat
  | [], _, besti, _ => besti
  | c :: rest, i, besti, best =>
    let d := metric datum c
    match best with
    | none => scanBest metric datum rest (i + 1) i (some d)
    | some b =>
      if d < b then scanBest metric datum rest (i + 1) i (some d)
      else scanBest metric datum rest (i + 1) besti (some b)

/-- The index of the cluster a datum is assigned to: the whole `while` loop
of `KMeansIteration.__call__`, started at index 0 with no best yet. -/
def assignIdx (metric : List ℚ → List ℚ → ℚ) (datum : List ℚ)
    (centers : List (List ℚ)) : Nat :=
  scanBest metric datum centers 0 0 none

/-- Embeds `model.cluster.kmeansIteration` (`KMeansIteration.__call__`): check both
emptiness conditions, bucket every datum into `matched[besti]` where `besti`
is the index [assignIdx] computes against `centers = clusters.map center`,
then walk the buckets alongside the clusters, passing a cluster through
unchanged when its bucket is empty and calling the update rule otherwise.
The Python locals `centers`, `length`, `besti` and `matched` are inlined. -/
def kmeansIteration (data : List (List ℚ)) (clusters : List (Cluster α))
    (metric : List ℚ → List ℚ → ℚ)
    (update : List (List ℚ) → Cluster α → Cluster α) :
    Except String (List (Cluster α)) :=
  if data.length = 0 then .error "no data" else
  if clusters.length = 0 then .error "no clusters" else
  .ok (((data.foldl
      (fun m datum =>
        m.set (assignIdx metric datum (clusters.map Cluster.center))
          (m.getD (assignIdx metric datum (clusters.map Cluster.center)) [] ++ [datum]))
      (List.replicate clusters.length [])).zip clusters).map
    fun p => if p.1 = [] then p.2 else update p.1 p.2)

/-- Embeds `model.cluster.updateMean` (`UpdateMean.__call__`): reject empty data,
take the dimension from the first vector, sum all vectors elementwise with a
dimension check on each, add `weight * center` with a dimension check, divide
elementwise by `len(data) + weight` through [div], and return the cluster
with only its `center` replaced.  Each failing step propagates its error. -/
def updateMean (data : List (List ℚ)) (cluster : Cluster α) (weight : ℚ) :
    Except String (Cluster α) :=
  if data.length = 0 then .error "no data" else
  let dimension := (data.headD []).length
  data.foldlM
      (fun summ vec =>
        if vec.length ≠ dimension then Except.error "dimensions of vectors do not match"
        else Except.ok (summ.zipWith (· + ·) vec))
      (List.replicate dimension (0 : ℚ)) >>= fun summ =>
  if cluster.center.length ≠ dimension then
    .error "dimensions of vectors do not match"
  else
    let summ2 := summ.zipWith (fun s v => s + weight * v) cluster.center
    let denom : ℚ := (data.length : ℚ) + weight
    summ2.mapM (fun x => div x denom) >>= fun center =>
    .ok { cluster with center := center }

/-- The spec's elementwise weighted-mean formula:
`center[i] = (Σ_v v[i] + weight * old[i]) / (count + weight)`. -/
def meanCenter (data : List (List ℚ)) (c : List ℚ) (w : ℚ) : List ℚ :=
  (List.range c.length).map fun i =>
    ((data.map fun v => v.getD i 0).sum + w * c.getD i 0) / ((data.length : ℚ) + w)

/-- Index `i` is the earliest index of strictly minimal value in `ds`: no entry is
smaller, and every entry before `i` is strictly larger. -/
def IsFirstMin (ds : List ℚ) (i : Nat) : Prop :=
  i < ds.length ∧ (∀ j < ds.length, ds.getD i 0 ≤ ds.getD j 0) ∧
    ∀ j < i, ds.getD j 0 > ds.getD i 0

/-- The strict order `argLowestN` realizes on indexed values: ascending value,
ties resolved by ascending (first-seen) index. -/
def Rlex (p q : Nat × ℚ) : Prop :=
  p.2 < q.2 ∨ (p.2 = q.2 ∧ p.1 < q.1)

/-- Relation [Rlex] read back on bare indices through a distance list. -/
def RIdx (ds : List ℚ) (i j : Nat) : Prop :=
  ds.getD i 0 < ds.getD j 0 ∨ (ds.getD i 0 = ds.getD j 0 ∧ i < j)

/-- The distance-only form of the assignment scan of
`KMeansIteration.__call__`: fold over the remaining distances, `i` being the
index of the next one and `(besti, b)` the best seen so far, replacing the
best only on a strictly smaller value. -/
def minIdxVal : List ℚ → Nat → ℚ → Nat → Nat × ℚ
  | [], besti, b, _ => (besti, b)
  | d :: rest, besti, b, i =>
    if d < b then minIdxVal rest i d (i + 1) else minIdxVal rest besti b (i + 1)

/-! ### Elementwise helpers -/

theorem list_eq_range_map (l : List ℚ) (d : Nat) (h : l.length = d) :
    l = (List.range d).map fun i => l.getD i 0 := by
  apply List.ext_getElem
  · simp [h]
  · intro i h1 h2
    rw [List.getElem_map, List.getElem_range, List.getD_eq_getElem]

theorem getD_range_map (f : Nat → ℚ) (d i : Nat) (h : i < d) :
    ((List.range d).map f).getD i 0 = f i := by
  rw [List.getD_eq_getElem _ _ (by simpa using h), List.getElem_map,
    List.getElem_range]

theorem getD_replicate_zero (d i : Nat) : (List.replicate d (0 : ℚ)).getD i 0 = 0 := by
  rcases lt_or_ge i d with h | h
  · rw [List.getD_eq_getElem _ _ (by simpa using h), List.getElem_replicate]
  · rw [List.getD_eq_default _ _ (by simpa using h)]

theorem zipWith_eq_range_map (f : ℚ → ℚ → ℚ) (a b : List ℚ) (d : Nat)
    (ha : a.length = d) (hb : b.length = d) :
    a.zipWith f b = (List.range d).map fun i => f (a.getD i 0) (b.getD i 0) := by
  apply List.ext_getElem
  · simp [ha, hb]
  · intro i h1 h2
    have hi : i < d := by simpa [ha, hb] using h1
    rw [List.getElem_zipWith, List.getElem_map, List.getElem_range,
      List.getD_eq_getElem _ _ (by simpa [ha] using hi),
      List.getD_eq_getElem _ _ (by simpa [hb] using hi)]

/-! ### updateMean lemmas -/

theorem exbind_ok {α β : Type} (a : α) (f : α → Except String β) :
    (Except.ok a >>= f : Except String β) = f a := rfl

theorem exbind_error {α β : Type} (e : String) (f : α → Except String β) :
    (Except.error e >>= f : Except String β) = Except.error e := rfl

theorem foldlM_sum (dimension : Nat) (data : List (List ℚ)) :
    ∀ acc : List ℚ, acc.length = dimension →
      (∀ v ∈ data, v.length = dimension) →
      data.foldlM
        (fun summ vec =>
          if vec.length ≠ dimension then Except.error "dimensions of vectors do not match"
          else Except.ok (summ.zipWith (· + ·) vec))
        acc
        = Except.ok ((List.range dimension).map fun i =>
            acc.getD i 0 + (data.map fun v => v.getD i 0).sum) := by
  induction data with
  | nil =>
    intro acc hl _
    simp only [List.foldlM_nil, List.map_nil, List.sum_nil, add_zero]
    rw [← list_eq_range_map acc dimension hl]
    rfl
  | cons v rest ih =>
    intro acc hl hv
    have hvd : v.length = dimension := hv v (by simp)
    rw [List.foldlM_cons, if_neg (not_not_intro hvd), exbind_ok]
    have hacc : (acc.zipWith (· + ·) v).length = dimension := by
      simp [hl, hvd]
    rw [ih (acc.zipWith (· + ·) v) hacc (fun w hw => hv w (by simp [hw]))]
    congr 1
    apply List.map_congr_left
    intro i hi
    have hid : i < dimension := List.mem_range.mp hi
    rw [zipWith_eq_range_map _ _ _ dimension hl hvd, getD_range_map _ _ _ hid]
    simp [add_assoc]

theorem mapM_div_ok (d : ℚ) (hd : d ≠ 0) : ∀ l : List ℚ,
    l.mapM (fun x => div x d) = Except.ok (l.map (· / d)) := by
  intro l
  induction l with
  | nil => rfl
  | cons x rest ih =>
    rw [List.mapM_cons, show div x d = Except.ok (x / d) from by simp [div, hd],
      exbind_ok, ih, exbind_ok]
    rfl

theorem mapM_div_zero (l : List ℚ) (hl : l ≠ []) :
    l.mapM (fun x => div x (0 : ℚ)) = Except.error "division by zero" := by
  cases l with
  | nil => exact absurd rfl hl
  | cons x rest =>
    rw [List.mapM_cons, show div x (0 : ℚ) = Except.error "division by zero" from by
      simp [div], exbind_error]

theorem headD_mem {l : List (List ℚ)} (h : l ≠ []) : l.headD [] ∈ l := by
  cases l with
  | nil => exact absurd rfl h
  | cons v rest => simp

theorem updateMean_ok_shape {α : Type} (data : List (List ℚ)) (cluster : Cluster α)
    (weight : ℚ)
    (hne : data ≠ [])
    (hdim : ∀ v ∈ data, v.length = cluster.center.length)
    (hden : (data.length : ℚ) + weight ≠ 0) :
    updateMean data cluster weight =
      Except.ok { cluster with center := meanCenter data cluster.center weight } := by
  have hlen0 : ¬data.length = 0 := by simpa [List.length_eq_zero] using hne
  have hhead : (data.headD []).length = cluster.center.length :=
    hdim _ (headD_mem hne)
  unfold updateMean
  rw [if_neg hlen0]
  simp only [hhead]
  rw [foldlM_sum cluster.center.length data (List.replicate cluster.center.length 0)
      (by simp) hdim]
  rw [exbind_ok]
  rw [if_neg (not_not_intro rfl)]
  rw [zipWith_eq_range_map (fun s v => s + weight * v) _ cluster.center
      cluster.center.length (by simp) rfl]
  rw [mapM_div_ok _ hden]
  rw [exbind_ok]
  rw [List.map_map]
  unfold meanCenter
  congr 1
  congr 1
  apply List.map_congr_left
  intro i hi
  have hid : i < cluster.center.length := List.mem_range.mp hi
  simp only [Function.comp]
  rw [getD_range_map _ _ _ hid, getD_replicate_zero, zero_add]

theorem exbind_ok_inv {α β : Type} {x : Except String α} {f : α → Except String β}
    {b : β} (h : (x >>= f) = Except.ok b) : ∃ a, x = Except.ok a ∧ f a = Except.ok b := by
  cases x with
  | error e => exact absurd h (by rw [exbind_error]; simp)
  | ok a => exact ⟨a, rfl, h⟩

/-- Successful `updateMean` never touches any field but `center`: the returned
record carries the old cluster's `extra` component unchanged. -/
theorem updateMean_extra {α : Type} (data : List (List ℚ)) (cluster : Cluster α)
    (weight : ℚ) (out : Cluster α)
    (h : updateMean data cluster weight = Except.ok out) :
    out.extra = cluster.extra := by
  unfold updateMean at h
  split at h
  · cases h
  · obtain ⟨summ, _, h⟩ := exbind_ok_inv h
    split at h
    · cases h
    · obtain ⟨c, _, h⟩ := exbind_ok_inv h
      injection h with h2
      rw [← h2]

/-- Claim C4: for every nonempty matched-vector sequence sharing one dimension
with the old center and every nonnegative weight, `updateMean` returns the old
cluster with `center = (Σ(matched) + weight * oldCenter) / (count + weight)`
elementwise (the `meanCenter` formula). -/
theorem updateMean_mean {α : Type} (data : List (List ℚ)) (cluster : Cluster α)
    (weight : ℚ)
    (hne : data ≠ [])
    (hdim : ∀ v ∈ data, v.length = cluster.center.length)
    (hw : 0 ≤ weight) :
    updateMean data cluster weight =
      Except.ok { cluster with center := meanCenter data cluster.center weight } := by
  apply updateMean_ok_shape data cluster weight hne hdim
  have h1 : (1 : ℚ) ≤ (data.length : ℚ) := by
    have : 1 ≤ data.length := Nat.one_le_iff_ne_zero.mpr (by
      simpa [List.length_eq_zero] using hne)
    exact_mod_cast this
  intro h
  linarith

/-- Witness for C4: the spec's worked example,
`updateMean([[1,1],[3,3]], center [0,0], weight 1)` gives `[4/3, 4/3]`. -/
theorem updateMean_mean_witness :
    updateMean [[1, 1], [3, 3]] (Cluster.mk [0, 0] ()) 1 =
      Except.ok (Cluster.mk [4/3, 4/3] ()) := by
  have h := updateMean_mean [[1, 1], [3, 3]] (Cluster.mk [0, 0] ()) 1
    (by decide) (by decide) (by norm_num)
  rw [h]
  exact congrArg Except.ok (congrArg (fun c => Cluster.mk c ())
    (by norm_num [meanCenter, List.range_succ]))

/-- Claim C2, amended: when the matched vectors and the old center share one
positive dimension and `count(matched) + weight = 0`, `updateMean` fails with
the division-by-zero error and returns no value.  (As stated over every input
the claim fails: a zero-dimensional input performs no division at all and
succeeds — see the counterexample.) -/
theorem updateMean_divzero {α : Type} (data : List (List ℚ)) (cluster : Cluster α)
    (weight : ℚ)
    (hne : data ≠ [])
    (hdim : ∀ v ∈ data, v.length = cluster.center.length)
    (hpos : 0 < cluster.center.length)
    (hden : (data.length : ℚ) + weight = 0) :
    updateMean data cluster weight = Except.error "division by zero" := by
  have hlen0 : ¬data.length = 0 := by simpa [List.length_eq_zero] using hne
  have hhead : (data.headD []).length = cluster.center.length :=
    hdim _ (headD_mem hne)
  unfold updateMean
  rw [if_neg hlen0]
  simp only [hhead]
  rw [foldlM_sum cluster.center.length data (List.replicate cluster.center.length 0)
      (by simp) hdim]
  rw [exbind_ok]
  rw [if_neg (not_not_intro rfl)]
  rw [hden]
  rw [mapM_div_zero _ (by
    apply List.ne_nil_of_length_pos
    simpa using hpos)]
  rw [exbind_error]

/-- Witness for C2 (amended): `updateMean([[1]], center [0], weight -1)` has
denominator `1 + (-1) = 0` and fails with the division-by-zero error. -/
theorem updateMean_divzero_witness :
    updateMean [[1]] (Cluster.mk [0] ()) (-1) = Except.error "division by zero" :=
  updateMean_divzero [[1]] (Cluster.mk [0] ()) (-1)
    (by decide) (by decide) (by decide) (by norm_num)

/-- Counterexample to C2 as stated: with a (legal) zero-dimensional matched
vector, the denominator `count + weight = 1 + (-1)` is zero and yet
`updateMean` returns a value — the elementwise division loop runs zero
times, so the failing division policy is never consulted. -/
theorem updateMean_divzero_cex :
    updateMean [[]] (Cluster.mk ([] : List ℚ) ()) (-1) =
        Except.ok (Cluster.mk [] ()) ∧
      (((([[]] : List (List ℚ))).length : ℚ) + (-1) = 0) := by
  refine ⟨rfl, by norm_num⟩

/-- Claim C10: `updateMean` itself rejects an empty matched-vector sequence,
for every cluster and every weight, with the immediate "no data" error and
returns no value. -/
theorem updateMean_rejects_empty {α : Type} (cluster : Cluster α) (weight : ℚ) :
    updateMean [] cluster weight = Except.error "no data" := rfl

/-! ### argLowestN lemmas -/

theorem insertIdx_perm (p : Nat × ℚ) :
    ∀ l : List (Nat × ℚ), (insertIdx p l).Perm (p :: l) := by
  intro l
  induction l with
  | nil => exact List.Perm.refl _
  | cons q rest ih =>
    unfold insertIdx
    split
    · exact List.Perm.refl _
    · exact (List.Perm.cons q ih).trans (List.Perm.swap p q rest)

theorem sortIdx_perm : ∀ l : List (Nat × ℚ), (sortIdx l).Perm l := by
  intro l
  induction l with
  | nil => exact List.Perm.refl _
  | cons p rest ih =>
    exact (insertIdx_perm p (sortIdx rest)).trans (List.Perm.cons p ih)

theorem insertIdx_pairwise (p : Nat × ℚ) :
    ∀ l : List (Nat × ℚ), l.Pairwise Rlex → (∀ q ∈ l, p.1 < q.1) →
      (insertIdx p l).Pairwise Rlex := by
  intro l
  induction l with
  | nil =>
    intro _ _
    exact List.pairwise_singleton Rlex p
  | cons q rest ih =>
    intro hp hidx
    unfold insertIdx
    split
    case isTrue hle =>
      refine List.Pairwise.cons ?_ hp
      intro x hx
      rcases List.mem_cons.mp hx with rfl | hxr
      · rcases lt_or_eq_of_le hle with h | h
        · exact Or.inl h
        · exact Or.inr ⟨h, hidx x (by simp)⟩
      · have hqx : Rlex q x := (List.pairwise_cons.mp hp).1 x hxr
        have hq2 : q.2 ≤ x.2 := by
          rcases hqx with h | ⟨h, _⟩
          · exact le_of_lt h
          · exact le_of_eq h
        rcases lt_or_eq_of_le (le_trans hle hq2) with h | h
        · exact Or.inl h
        · exact Or.inr ⟨h, hidx x (by simp [hxr])⟩
    case isFalse hgt =>
      have hq : ∀ x ∈ insertIdx p rest, Rlex q x := by
        intro x hx
        have hmem := ((insertIdx_perm p rest).mem_iff).mp hx
        rcases List.mem_cons.mp hmem with rfl | hxr
        · exact Or.inl (lt_of_not_le hgt)
        · exact (List.pairwise_cons.mp hp).1 x hxr
      exact List.Pairwise.cons hq
        (ih (List.pairwise_cons.mp hp).2 (fun x hx => hidx x (by simp [hx])))

theorem sortIdx_pairwise :
    ∀ l : List (Nat × ℚ), l.Pairwise (fun p q => p.1 < q.1) →
      (sortIdx l).Pairwise Rlex := by
  intro l
  induction l with
  | nil => intro _; exact List.Pairwise.nil
  | cons p rest ih =>
    intro hp
    apply insertIdx_pairwise p (sortIdx rest) (ih (List.pairwise_cons.mp hp).2)
    intro q hq
    exact (List.pairwise_cons.mp hp).1 q ((sortIdx_perm rest).mem_iff.mp hq)

theorem enum_pairwise_fst (l : List ℚ) :
    l.enum.Pairwise (fun p q : Nat × ℚ => p.1 < q.1) := by
  have h := List.pairwise_lt_range l.length
  rw [← List.enum_map_fst l] at h
  exact List.pairwise_map.mp h

theorem mem_enum_spec {l : List ℚ} {p : Nat × ℚ} (h : p ∈ l.enum) :
    p.1 < l.length ∧ l.getD p.1 0 = p.2 := by
  have hg : l[p.1]? = some p.2 := List.mem_enum_iff_getElem?.mp h
  have hlt : p.1 < l.length := by
    by_contra hge
    rw [List.getElem?_eq_none (by omega)] at hg
    cases hg
  refine ⟨hlt, ?_⟩
  rw [List.getElem?_eq_getElem hlt] at hg
  rw [List.getD_eq_getElem l 0 hlt]
  exact Option.some.inj hg

theorem enum_mem_of_lt {l : List ℚ} {j : Nat} (hj : j < l.length) :
    (j, l.getD j 0) ∈ l.enum := by
  apply List.mem_enum_iff_getElem?.mpr
  rw [show (j, l.getD j 0).1 = j from rfl, List.getElem?_eq_getElem hj,
    List.getD_eq_getElem l 0 hj]

theorem argLowestN_facts (ds : List ℚ) (n : Int) :
    (∀ i ∈ argLowestN ds n, i < ds.length) ∧
    (argLowestN ds n).Pairwise (RIdx ds) ∧
    (argLowestN ds n).length = min n.toNat ds.length ∧
    (∀ i ∈ argLowestN ds n, ∀ j < ds.length, j ∉ argLowestN ds n →
      RIdx ds i j) := by
  have hperm : (sortIdx ds.enum).Perm ds.enum := sortIdx_perm ds.enum
  have hpw : (sortIdx ds.enum).Pairwise Rlex := sortIdx_pairwise _ (enum_pairwise_fst ds)
  have hspec : ∀ p ∈ sortIdx ds.enum, p.1 < ds.length ∧ ds.getD p.1 0 = p.2 :=
    fun p hp => mem_enum_spec (hperm.mem_iff.mp hp)
  have hlen : (sortIdx ds.enum).length = ds.length := by
    rw [hperm.length_eq, List.enum_length]
  refine ⟨?_, ?_, ?_, ?_⟩
  · intro i hi
    have hm : i ∈ (sortIdx ds.enum).map Prod.fst := List.mem_of_mem_take hi
    obtain ⟨p, hp, rfl⟩ := List.mem_map.mp hm
    exact (hspec p hp).1
  · have hpw2 : (sortIdx ds.enum).Pairwise (fun p q => RIdx ds p.1 q.1) := by
      refine hpw.imp_of_mem ?_
      intro p q hp hq hpq
      have hps := hspec p hp
      have hqs := hspec q hq
      rcases hpq with h | ⟨h, hidx⟩
      · exact Or.inl (by rw [hps.2, hqs.2]; exact h)
      · exact Or.inr ⟨by rw [hps.2, hqs.2]; exact h, hidx⟩
    exact List.Pairwise.sublist (List.take_sublist _ _) (List.pairwise_map.mpr hpw2)
  · unfold argLowestN
    rw [List.length_take, List.length_map, hlen]
  · intro i hi j hj hjn
    have hmt : argLowestN ds n = ((sortIdx ds.enum).take n.toNat).map Prod.fst := by
      unfold argLowestN
      rw [List.map_take]
    rw [hmt] at hi hjn
    obtain ⟨p, hpT, rfl⟩ := List.mem_map.mp hi
    have hq : (j, ds.getD j 0) ∈ sortIdx ds.enum := hperm.mem_iff.mpr (enum_mem_of_lt hj)
    have hsplit := List.take_append_drop n.toNat (sortIdx ds.enum)
    rw [← hsplit] at hq hpw
    rcases List.mem_append.mp hq with hqT | hqD
    · exact absurd (List.mem_map.mpr ⟨_, hqT, rfl⟩) hjn
    · have hrel : Rlex p (j, ds.getD j 0) :=
        (List.pairwise_append.mp hpw).2.2 p hpT _ hqD
      have hps := hspec p (List.mem_of_mem_take hpT)
      rcases hrel with h | ⟨h, hidx⟩
      · exact Or.inl (by rw [hps.2]; exact h)
      · exact Or.inr ⟨by rw [hps.2]; exact h, hidx⟩

theorem getCluster_ok {α : Type} (clusters : List (Cluster α)) {i : Nat}
    (hi : i < clusters.length) :
    getCluster clusters i = Except.ok (clusters.get ⟨i, hi⟩) := by
  unfold getCluster
  rw [List.get?_eq_getElem?, List.getElem?_eq_getElem hi]
  rfl

theorem get?_some {α : Type} (clusters : List (Cluster α)) {i : Nat}
    (hi : i < clusters.length) :
    clusters.get? i = some (clusters.get ⟨i, hi⟩) := by
  rw [List.get?_eq_getElem?, List.getElem?_eq_getElem hi]
  rfl

theorem mapM_getCluster {α : Type} (clusters : List (Cluster α)) :
    ∀ idxs : List Nat, (∀ i ∈ idxs, i < clusters.length) →
      idxs.mapM (getCluster clusters) =
        Except.ok (idxs.filterMap fun i => clusters.get? i) := by
  intro idxs
  induction idxs with
  | nil => intro _; rfl
  | cons i rest ih =>
    intro hv
    have hi : i < clusters.length := hv i (by simp)
    rw [List.mapM_cons, getCluster_ok clusters hi, exbind_ok,
      ih (fun j hj => hv j (by simp [hj])), exbind_ok,
      List.filterMap_cons_some (get?_some clusters hi)]
    rfl

theorem distList_getD {α : Type} (datum : List ℚ) (clusters : List (Cluster α))
    (metric : List ℚ → List ℚ → ℚ) {i : Nat} (hi : i < clusters.length) :
    (distList datum clusters metric).getD i 0 =
      metric datum (clusters.get ⟨i, hi⟩).center := by
  unfold distList
  rw [List.getD_eq_getElem _ _ (by simpa using hi), List.getElem_map]
  rfl



/-- Claim C6: for a nonempty cluster list, `closest` returns a cluster at
some index `i` whose distance is no greater than every cluster's distance,
and every index attaining that minimal distance is `≥ i` (earliest-index tie
break). -/
theorem closest_spec {α : Type} (datum : List ℚ) (clusters : List (Cluster α))
    (metric : List ℚ → List ℚ → ℚ) (hne : clusters ≠ []) :
    ∃ c, closest datum clusters metric = Except.ok c ∧
      ∃ i, clusters.get? i = some c ∧
        (∀ j < clusters.length,
          metric datum c.center ≤ (distList datum clusters metric).getD j 0) ∧
        (∀ j < clusters.length,
          (distList datum clusters metric).getD j 0 = metric datum c.center →
            i ≤ j) := by
  have hlen0 : clusters.length ≠ 0 := by simpa [List.length_eq_zero] using hne
  set ds := distList datum clusters metric with hds
  have hdslen : ds.length = clusters.length := by simp [hds, distList]
  have hperm := sortIdx_perm ds.enum
  have hpw := sortIdx_pairwise ds.enum (enum_pairwise_fst ds)
  have hslen : (sortIdx ds.enum).length = ds.length := by
    rw [hperm.length_eq, List.enum_length]
  obtain ⟨p, tail, hcons⟩ : ∃ p tail, sortIdx ds.enum = p :: tail := by
    cases hs : sortIdx ds.enum with
    | nil =>
      exfalso
      rw [hs] at hslen
      simp at hslen
      omega
    | cons p tail => exact ⟨p, tail, rfl⟩
  have hpmem : p ∈ sortIdx ds.enum := by rw [hcons]; simp
  have hpspec := mem_enum_spec (hperm.mem_iff.mp hpmem)
  have hplt : p.1 < clusters.length := hdslen ▸ hpspec.1
  have harg : argLowestN ds 1 = [p.1] := by
    unfold argLowestN
    rw [hcons]
    rfl
  have hcval : metric datum (clusters.get ⟨p.1, hplt⟩).center = p.2 := by
    rw [← distList_getD datum clusters metric hplt, ← hds, hpspec.2]
  refine ⟨clusters.get ⟨p.1, hplt⟩, ?_, p.1, get?_some clusters hplt, ?_, ?_⟩
  · unfold closest
    rw [if_neg hlen0, ← hds, harg]
    exact getCluster_ok clusters hplt
  · intro j hj
    have hjds : j < ds.length := by omega
    have hqmem := hperm.mem_iff.mpr (enum_mem_of_lt hjds)
    rw [hcons] at hqmem
    rw [hcval]
    rcases List.mem_cons.mp hqmem with heq | htail
    · rw [← heq]
    · have hrel : Rlex p (j, ds.getD j 0) :=
        (List.pairwise_cons.mp (hcons ▸ hpw)).1 _ htail
      rcases hrel with h | ⟨h, _⟩
      · exact le_of_lt h
      · exact le_of_eq h
  · intro j hj hval
    have hjds : j < ds.length := by omega
    have hqmem := hperm.mem_iff.mpr (enum_mem_of_lt hjds)
    rw [hcons] at hqmem
    rw [hcval] at hval
    rcases List.mem_cons.mp hqmem with heq | htail
    · have : p.1 = j := by
        have := congrArg Prod.fst heq
        simpa using this.symm
      omega
    · have hrel : Rlex p (j, ds.getD j 0) :=
        (List.pairwise_cons.mp (hcons ▸ hpw)).1 _ htail
      rcases hrel with h | ⟨h, hidx⟩
      · exfalso
        rw [hval] at h
        exact lt_irrefl _ h
      · exact le_of_lt hidx



theorem filterMap_get_length {α : Type} (clusters : List (Cluster α)) :
    ∀ idxs : List Nat, (∀ i ∈ idxs, i < clusters.length) →
      (idxs.filterMap clusters.get?).length = idxs.length := by
  intro idxs
  induction idxs with
  | nil => intro _; rfl
  | cons i rest ih =>
    intro hv
    have hi : i < clusters.length := hv i (by simp)
    rw [List.filterMap_cons_some (get?_some clusters hi), List.length_cons,
      List.length_cons, ih (fun j hj => hv j (by simp [hj]))]

theorem filterMap_pairwise {α : Type} (clusters : List (Cluster α))
    (datum : List ℚ) (metric : List ℚ → List ℚ → ℚ) :
    ∀ idxs : List Nat, idxs.Pairwise (RIdx (distList datum clusters metric)) →
      (∀ i ∈ idxs, i < clusters.length) →
      (idxs.filterMap fun i => clusters.get? i).Pairwise
        (fun c c' => metric datum c.center ≤ metric datum c'.center) := by
  intro idxs
  induction idxs with
  | nil => intro _ _; exact List.Pairwise.nil
  | cons i rest ih =>
    intro hpw hv
    have hi : i < clusters.length := hv i (by simp)
    rw [List.filterMap_cons_some (get?_some clusters hi)]
    refine List.Pairwise.cons ?_
      (ih (List.pairwise_cons.mp hpw).2 (fun j hj => hv j (by simp [hj])))
    intro c' hc'
    obtain ⟨j, hjr, hjsome⟩ := List.mem_filterMap.mp hc'
    have hj : j < clusters.length := hv j (by simp [hjr])
    have hrel : RIdx (distList datum clusters metric) i j :=
      (List.pairwise_cons.mp hpw).1 j hjr
    have hc'eq : c' = clusters.get ⟨j, hj⟩ := by
      rw [get?_some clusters hj] at hjsome
      exact (Option.some.inj hjsome).symm
    rw [hc'eq, ← distList_getD datum clusters metric hi,
      ← distList_getD datum clusters metric hj]
    rcases hrel with h | ⟨h, _⟩
    · exact le_of_lt h
    · exact le_of_eq h

/-- Claim C7, amended to nonnegative `n` (a negative `n` yields the empty
list, not a list of negative length): `closestN` returns the clusters at the
`argLowestN` indices — of length `min n (len clusters)`, in ascending
distance order, with ties broken by earliest index ([RIdx]), and every
selected index preceding every unselected index in the strict first-seen
order [RIdx] — strictly smaller distance, or equal distance and smaller
index. -/
theorem closestN_spec {α : Type} (datum : List ℚ) (clusters : List (Cluster α))
    (metric : List ℚ → List ℚ → ℚ) (n : Int)
    (_hne : clusters ≠ []) (hn : 0 ≤ n) :
    ∃ out, closestN datum clusters metric n = Except.ok out ∧
      (out.length : Int) = min n (clusters.length : Int) ∧
      out.Pairwise (fun c c' => metric datum c.center ≤ metric datum c'.center) ∧
      ∃ idxs : List Nat, out = idxs.filterMap (fun i => clusters.get? i) ∧
        (∀ i ∈ idxs, i < clusters.length) ∧
        idxs.Pairwise (RIdx (distList datum clusters metric)) ∧
        (∀ i ∈ idxs, ∀ j < clusters.length, j ∉ idxs →
          RIdx (distList datum clusters metric) i j) := by
  set ds := distList datum clusters metric with hds
  have hdslen : ds.length = clusters.length := by simp [hds, distList]
  obtain ⟨hbound, hpw, hlen, hmin⟩ := argLowestN_facts ds n
  have hbound' : ∀ i ∈ argLowestN ds n, i < clusters.length := by
    intro i hi
    have := hbound i hi
    omega
  have hok : closestN datum clusters metric n =
      Except.ok ((argLowestN ds n).filterMap fun i => clusters.get? i) := by
    unfold closestN
    rw [← hds]
    exact mapM_getCluster clusters (argLowestN ds n) hbound'
  refine ⟨_, hok, ?_, ?_, argLowestN ds n, rfl, hbound', hpw, ?_⟩
  · -- length
    rw [filterMap_get_length clusters (argLowestN ds n) hbound', hlen, hdslen]
    omega
  · exact filterMap_pairwise clusters datum metric (argLowestN ds n) hpw hbound'
  · intro i hi j hj hjn
    exact hmin i hi j (by omega) hjn



/-- Claim C1, amended: on an empty cluster list `closest` fails with the
EmptyClusterSet error (`"no clusters"`), but `closestN` performs no emptiness
check at all and returns the empty list for every `n` — it does not fail. -/
theorem emptyCluster_check {α : Type} (datum : List ℚ)
    (metric : List ℚ → List ℚ → ℚ) (n : Int) :
    closest datum ([] : List (Cluster α)) metric = Except.error "no clusters" ∧
      closestN datum ([] : List (Cluster α)) metric n = Except.ok [] := by
  constructor
  · rfl
  · unfold closestN argLowestN distList
    simp only [List.map_nil, List.enum_nil, sortIdx, List.take_nil]
    rfl

/-- Counterexample to C1 as stated: at a concrete datum, metric and `n`,
`closestN` on the empty cluster list returns a value (the empty list) instead
of failing. -/
theorem closestN_empty_cex :
    closestN [0] ([] : List (Cluster Unit)) (fun _ _ => 0) 5 = Except.ok [] := rfl

/-- Counterexample to C7 as stated: at `n = -1` the result is empty (length
0), not of length `min n (len clusters) = -1`. -/
theorem closestN_neg_cex :
    closestN [0] [Cluster.mk [0] ()] (fun _ _ => 0) (-1) = Except.ok [] ∧
      min (-1 : Int) (([Cluster.mk [0] ()] : List (Cluster Unit)).length : Int) ≠
        (([] : List (Cluster Unit)).length : Int) := by
  constructor
  · rfl
  · decide

/-- Witness for C6 at a concrete two-cluster instance. -/
theorem closest_spec_witness :
    ∃ c, closest [0] [Cluster.mk [3] (), Cluster.mk [1] ()]
        (fun a b => |a.getD 0 0 - b.getD 0 0|) = Except.ok c ∧
      ∃ i, ([Cluster.mk [3] (), Cluster.mk [1] ()] : List (Cluster Unit)).get? i
          = some c ∧
        (∀ j < ([Cluster.mk [3] (), Cluster.mk [1] ()] : List (Cluster Unit)).length,
          (fun a b => |a.getD 0 0 - b.getD 0 0|) [0] c.center ≤
            (distList [0] [Cluster.mk [3] (), Cluster.mk [1] ()]
              (fun a b => |a.getD 0 0 - b.getD 0 0|)).getD j 0) ∧
        (∀ j < ([Cluster.mk [3] (), Cluster.mk [1] ()] : List (Cluster Unit)).length,
          (distList [0] [Cluster.mk [3] (), Cluster.mk [1] ()]
              (fun a b => |a.getD 0 0 - b.getD 0 0|)).getD j 0 =
            (fun a b => |a.getD 0 0 - b.getD 0 0|) [0] c.center → i ≤ j) :=
  closest_spec [0] [Cluster.mk [3] (), Cluster.mk [1] ()]
    (fun a b => |a.getD 0 0 - b.getD 0 0|) (by simp)

/-- Witness for C7 at a concrete two-cluster instance with `n = 2`. -/
theorem closestN_spec_witness :
    ∃ out, closestN [0] [Cluster.mk [3] (), Cluster.mk [1] ()]
        (fun a b => |a.getD 0 0 - b.getD 0 0|) 2 = Except.ok out ∧
      (out.length : Int) =
        min 2 (([Cluster.mk [3] (), Cluster.mk [1] ()] : List (Cluster Unit)).length : Int) ∧
      out.Pairwise (fun c c' =>
        (fun a b => |a.getD 0 0 - b.getD 0 0|) [0] c.center ≤
          (fun a b => |a.getD 0 0 - b.getD 0 0|) [0] c'.center) ∧
      ∃ idxs : List Nat,
        out = idxs.filterMap ([Cluster.mk [3] (), Cluster.mk [1] ()] : List (Cluster Unit)).get? ∧
        (∀ i ∈ idxs, i < ([Cluster.mk [3] (), Cluster.mk [1] ()] : List (Cluster Unit)).length) ∧
        idxs.Pairwise (RIdx (distList [0] [Cluster.mk [3] (), Cluster.mk [1] ()]
          (fun a b => |a.getD 0 0 - b.getD 0 0|))) ∧
        (∀ i ∈ idxs, ∀ j < ([Cluster.mk [3] (), Cluster.mk [1] ()] : List (Cluster Unit)).length,
          j ∉ idxs →
          RIdx (distList [0] [Cluster.mk [3] (), Cluster.mk [1] ()]
            (fun a b => |a.getD 0 0 - b.getD 0 0|)) i j) :=
  closestN_spec [0] [Cluster.mk [3] (), Cluster.mk [1] ()]
    (fun a b => |a.getD 0 0 - b.getD 0 0|) 2 (by simp) (by norm_num)

theorem getD_cons_zero' (d : ℚ) (rest : List ℚ) : (d :: rest).getD 0 0 = d := rfl

theorem getD_cons_succ' (d : ℚ) (rest : List ℚ) (k : Nat) :
    (d :: rest).getD (k + 1) 0 = rest.getD k 0 := rfl

theorem minIdxVal_spec :
    ∀ (ds : List ℚ) (besti : Nat) (b : ℚ) (i : Nat),
      ((∀ k < ds.length, b ≤ ds.getD k 0) → minIdxVal ds besti b i = (besti, b)) ∧
      (¬(∀ k < ds.length, b ≤ ds.getD k 0) →
        ∃ k, k < ds.length ∧
          minIdxVal ds besti b i = (i + k, ds.getD k 0) ∧
          ds.getD k 0 < b ∧
          (∀ j < ds.length, ds.getD k 0 ≤ ds.getD j 0) ∧
          (∀ j < k, ds.getD k 0 < ds.getD j 0)) := by
  intro ds
  induction ds with
  | nil =>
    intro besti b i
    constructor
    · intro _
      rfl
    · intro h
      exact absurd (fun k hk => by simp at hk) h
  | cons d rest ih =>
    intro besti b i
    constructor
    · intro hall
      have hd : b ≤ d := by
        have := hall 0 (by simp)
        rwa [getD_cons_zero'] at this
      unfold minIdxVal
      rw [if_neg (not_lt.mpr hd)]
      exact (ih besti b (i + 1)).1 (fun k hk => by
        have := hall (k + 1) (by simpa using hk)
        rwa [getD_cons_succ'] at this)
    · intro hnall
      unfold minIdxVal
      by_cases hd : d < b
      · rw [if_pos hd]
        by_cases hrest : ∀ k < rest.length, d ≤ rest.getD k 0
        · rw [(ih i d (i + 1)).1 hrest]
          refine ⟨0, by simp, by rw [getD_cons_zero', Nat.add_zero], ?_, ?_, ?_⟩
          · rwa [getD_cons_zero']
          · intro j hj
            rw [getD_cons_zero']
            cases j with
            | zero => rw [getD_cons_zero']
            | succ j' =>
              rw [getD_cons_succ']
              exact hrest j' (by simpa using hj)
          · intro j hj
            omega
        · obtain ⟨k', hk', heq, hlt, hmin, hfirst⟩ := (ih i d (i + 1)).2 hrest
          refine ⟨k' + 1, by simpa using hk', ?_, ?_, ?_, ?_⟩
          · rw [heq, getD_cons_succ']
            congr 1
            omega
          · rw [getD_cons_succ']
            exact lt_trans hlt hd
          · intro j hj
            rw [getD_cons_succ']
            cases j with
            | zero =>
              rw [getD_cons_zero']
              exact le_of_lt hlt
            | succ j' =>
              rw [getD_cons_succ']
              exact hmin j' (by simpa using hj)
          · intro j hj
            rw [getD_cons_succ']
            cases j with
            | zero =>
              rw [getD_cons_zero']
              exact hlt
            | succ j' =>
              rw [getD_cons_succ']
              exact hfirst j' (by omega)
      · rw [if_neg hd]
        have hble : b ≤ d := not_lt.mp hd
        have hnrest : ¬∀ k < rest.length, b ≤ rest.getD k 0 := by
          intro hrest
          apply hnall
          intro k hk
          cases k with
          | zero =>
            rwa [getD_cons_zero']
          | succ k' =>
            rw [getD_cons_succ']
            exact hrest k' (by simpa using hk)
        obtain ⟨k', hk', heq, hlt, hmin, hfirst⟩ := (ih besti b (i + 1)).2 hnrest
        refine ⟨k' + 1, by simpa using hk', ?_, ?_, ?_, ?_⟩
        · rw [heq, getD_cons_succ']
          congr 1
          omega
        · rwa [getD_cons_succ']
        · intro j hj
          rw [getD_cons_succ']
          cases j with
          | zero =>
            rw [getD_cons_zero']
            exact le_of_lt (lt_of_lt_of_le hlt hble)
          | succ j' =>
            rw [getD_cons_succ']
            exact hmin j' (by simpa using hj)
        · intro j hj
          rw [getD_cons_succ']
          cases j with
          | zero =>
            rw [getD_cons_zero']
            exact lt_of_lt_of_le hlt hble
          | succ j' =>
            rw [getD_cons_succ']
            exact hfirst j' (by omega)

theorem scanBest_eq_minIdxVal (metric : List ℚ → List ℚ → ℚ) (datum : List ℚ) :
    ∀ (cs : List (List ℚ)) (i besti : Nat) (b : ℚ),
      scanBest metric datum cs i besti (some b) =
        (minIdxVal (cs.map fun c => metric datum c) besti b i).1 := by
  intro cs
  induction cs with
  | nil =>
    intro i besti b
    rfl
  | cons c rest ih =>
    intro i besti b
    show (if metric datum c < b
        then scanBest metric datum rest (i + 1) i (some (metric datum c))
        else scanBest metric datum rest (i + 1) besti (some b)) = _
    rw [List.map_cons]
    show _ = (if metric datum c < b
        then minIdxVal (rest.map fun c => metric datum c) i (metric datum c) (i + 1)
        else minIdxVal (rest.map fun c => metric datum c) besti b (i + 1)).1
    by_cases h : metric datum c < b
    · rw [if_pos h, if_pos h, ih]
    · rw [if_neg h, if_neg h, ih]

theorem assignIdx_isFirstMin (metric : List ℚ → List ℚ → ℚ) (datum : List ℚ)
    (centers : List (List ℚ)) (hne : centers ≠ []) :
    IsFirstMin (centers.map fun c => metric datum c)
      (assignIdx metric datum centers) := by
  cases centers with
  | nil => exact absurd rfl hne
  | cons c cs =>
    have h0 : assignIdx metric datum (c :: cs) =
        (minIdxVal (cs.map fun x => metric datum x) 0 (metric datum c) 1).1 := by
      show scanBest metric datum (c :: cs) 0 0 none = _
      rw [show scanBest metric datum (c :: cs) 0 0 none =
        scanBest metric datum cs 1 0 (some (metric datum c)) from rfl]
      exact scanBest_eq_minIdxVal metric datum cs 1 0 (metric datum c)
    rw [List.map_cons]
    by_cases hall : ∀ k < (cs.map fun x => metric datum x).length,
        metric datum c ≤ (cs.map fun x => metric datum x).getD k 0
    · rw [h0, (minIdxVal_spec (cs.map fun x => metric datum x) 0 (metric datum c) 1).1 hall]
      refine ⟨by simp, ?_, ?_⟩
      · intro j hj
        rw [getD_cons_zero']
        cases j with
        | zero => rw [getD_cons_zero']
        | succ j' =>
          rw [getD_cons_succ']
          exact hall j' (by simpa using hj)
      · intro j hj
        omega
    · obtain ⟨k, hk, heq, hlt, hmin, hfirst⟩ :=
        (minIdxVal_spec (cs.map fun x => metric datum x) 0 (metric datum c) 1).2 hall
      rw [h0, heq]
      have h1k : 1 + k = k + 1 := by omega
      have hk' : k < cs.length := by simpa using hk
      refine ⟨by simp; omega, ?_, ?_⟩
      · intro j hj
        rw [h1k, getD_cons_succ']
        cases j with
        | zero =>
          rw [getD_cons_zero']
          exact le_of_lt hlt
        | succ j' =>
          rw [getD_cons_succ']
          exact hmin j' (by simpa using hj)
      · intro j hj
        rw [h1k, getD_cons_succ']
        cases j with
        | zero =>
          rw [getD_cons_zero']
          exact hlt
        | succ j' =>
          rw [getD_cons_succ']
          exact hfirst j' (by omega)

theorem getD_replicate_nil (L i : Nat) :
    (List.replicate L ([] : List (List ℚ))).getD i [] = [] := by
  rcases lt_or_ge i L with h | h
  · rw [List.getD_eq_getElem _ _ (by simpa using h), List.getElem_replicate]
  · rw [List.getD_eq_default _ _ (by simpa using h)]

theorem bucket_fold_length (a : List ℚ → Nat) :
    ∀ (data : List (List ℚ)) (m : List (List (List ℚ))),
      (data.foldl (fun m datum =>
        m.set (a datum) (m.getD (a datum) [] ++ [datum])) m).length = m.length := by
  intro data
  induction data with
  | nil =>
    intro m
    rfl
  | cons v rest ih =>
    intro m
    rw [List.foldl_cons, ih, List.length_set]

theorem bucket_fold_getD (a : List ℚ → Nat) :
    ∀ (data : List (List ℚ)) (m : List (List (List ℚ))) (i : Nat), i < m.length →
      (data.foldl (fun m datum =>
          m.set (a datum) (m.getD (a datum) [] ++ [datum])) m).getD i []
        = m.getD i [] ++ data.filter (fun datum => a datum == i) := by
  intro data
  induction data with
  | nil =>
    intro m i hi
    simp
  | cons v rest ih =>
    intro m i hi
    rw [List.foldl_cons,
      ih (m.set (a v) (m.getD (a v) [] ++ [v])) i (by rwa [List.length_set]),
      List.filter_cons]
    by_cases hv : a v = i
    · have hset : (m.set (a v) (m.getD (a v) [] ++ [v])).getD i [] =
          m.getD i [] ++ [v] := by
        rw [List.getD_eq_getElem _ _ (by rwa [List.length_set]),
          List.getElem_set, if_pos hv, hv]
      rw [hset, if_pos (by simpa using hv)]
      simp
    · have hset : (m.set (a v) (m.getD (a v) [] ++ [v])).getD i [] =
          m.getD i [] := by
        rw [List.getD_eq_getElem _ _ (by rwa [List.length_set]),
          List.getElem_set, if_neg hv, ← List.getD_eq_getElem m [] hi]
      rw [hset, if_neg (by simpa using hv)]

theorem kmeans_eq {α : Type} (data : List (List ℚ)) (clusters : List (Cluster α))
    (metric : List ℚ → List ℚ → ℚ) (update : List (List ℚ) → Cluster α → Cluster α)
    (hd : ¬data.length = 0) (hc : ¬clusters.length = 0) :
    ∃ out, kmeansIteration data clusters metric update = Except.ok out ∧
      out.length = clusters.length ∧
      ∀ i, ∀ hi : i < clusters.length, ∀ ho : i < out.length,
        out.get ⟨i, ho⟩ =
          (if data.filter (fun datum =>
              assignIdx metric datum (clusters.map Cluster.center) == i) = []
           then clusters.get ⟨i, hi⟩
           else update (data.filter (fun datum =>
              assignIdx metric datum (clusters.map Cluster.center) == i))
             (clusters.get ⟨i, hi⟩)) := by
  have hres : kmeansIteration data clusters metric update =
      Except.ok (((data.foldl
          (fun m datum =>
            m.set (assignIdx metric datum (clusters.map Cluster.center))
              (m.getD (assignIdx metric datum (clusters.map Cluster.center)) [] ++ [datum]))
          (List.replicate clusters.length [])).zip clusters).map
        fun p => if p.1 = [] then p.2 else update p.1 p.2) := by
    unfold kmeansIteration
    rw [if_neg hd, if_neg hc]
  have hmlen : (data.foldl
      (fun m datum =>
        m.set (assignIdx metric datum (clusters.map Cluster.center))
          (m.getD (assignIdx metric datum (clusters.map Cluster.center)) [] ++ [datum]))
      (List.replicate clusters.length [])).length = clusters.length := by
    rw [bucket_fold_length (fun datum => assignIdx metric datum (clusters.map Cluster.center))
      data (List.replicate clusters.length []), List.length_replicate]
  refine ⟨_, hres, ?_, ?_⟩
  · rw [List.length_map, List.length_zip, hmlen]
    omega
  · intro i hi ho
    have ho' : i < (((data.foldl
        (fun m datum =>
          m.set (assignIdx metric datum (clusters.map Cluster.center))
            (m.getD (assignIdx metric datum (clusters.map Cluster.center)) [] ++ [datum]))
        (List.replicate clusters.length [])).zip clusters).map
      fun p => if p.1 = [] then p.2 else update p.1 p.2).length := by
      rw [List.length_map, List.length_zip, hmlen]
      omega
    rw [List.get_eq_getElem, List.getElem_map, List.getElem_zip]
    have hbushape : (data.foldl
        (fun m datum =>
          m.set (assignIdx metric datum (clusters.map Cluster.center))
            (m.getD (assignIdx metric datum (clusters.map Cluster.center)) [] ++ [datum]))
        (List.replicate clusters.length [])).getD i [] =
        data.filter (fun datum =>
          assignIdx metric datum (clusters.map Cluster.center) == i) := by
      rw [bucket_fold_getD (fun datum => assignIdx metric datum (clusters.map Cluster.center))
          data (List.replicate clusters.length []) i (by simpa using hi),
        getD_replicate_nil]
      rfl
    rw [← List.getD_eq_getElem (data.foldl
        (fun m datum =>
          m.set (assignIdx metric datum (clusters.map Cluster.center))
            (m.getD (assignIdx metric datum (clusters.map Cluster.center)) [] ++ [datum]))
        (List.replicate clusters.length [])) ([] : List (List ℚ)) (show i < _ by rw [hmlen]; omega),
      hbushape]
    rfl

/-- Claim C3: for nonempty data and clusters, `kmeansIteration` returns a
cluster list of the same length (and positional order) as the input; every
data vector is assigned, by [assignIdx], to the earliest index of strictly
minimal metric distance ([IsFirstMin], the first-seen tie break); each
cluster's bucket is the order-preserving `filter` of the dataset by that
assignment; and position `i` of the output is the old cluster when its bucket
is empty and `update bucket oldCluster` otherwise. -/
theorem kmeansIteration_spec {α : Type} (data : List (List ℚ)) (clusters : List (Cluster α))
    (metric : List ℚ → List ℚ → ℚ) (update : List (List ℚ) → Cluster α → Cluster α)
    (hd : data ≠ []) (hc : clusters ≠ []) :
    ∃ out, kmeansIteration data clusters metric update = Except.ok out ∧
      out.length = clusters.length ∧
      (∀ datum ∈ data, IsFirstMin (distList datum clusters metric)
        (assignIdx metric datum (clusters.map Cluster.center))) ∧
      ∀ i, ∀ hi : i < clusters.length, ∀ ho : i < out.length,
        out.get ⟨i, ho⟩ =
          (if data.filter (fun datum =>
              assignIdx metric datum (clusters.map Cluster.center) == i) = []
           then clusters.get ⟨i, hi⟩
           else update (data.filter (fun datum =>
              assignIdx metric datum (clusters.map Cluster.center) == i))
             (clusters.get ⟨i, hi⟩)) := by
  have hd0 : ¬data.length = 0 := by simpa [List.length_eq_zero] using hd
  have hc0 : ¬clusters.length = 0 := by simpa [List.length_eq_zero] using hc
  obtain ⟨out, hres, hlen, hpos⟩ := kmeans_eq data clusters metric update hd0 hc0
  refine ⟨out, hres, hlen, ?_, hpos⟩
  intro datum _
  have hne : clusters.map Cluster.center ≠ [] := by
    intro hnil
    exact hc (List.map_eq_nil_iff.mp hnil)
  have h := assignIdx_isFirstMin metric datum (clusters.map Cluster.center) hne
  have hmm : (clusters.map Cluster.center).map (fun c => metric datum c) =
      distList datum clusters metric := by
    rw [List.map_map]
    rfl
  rwa [hmm] at h

/-- Claim C5: fields other than `center` pass through unchanged.  A cluster
whose bucket is empty comes out of `kmeansIteration` as the identical record,
and a successful `updateMean` preserves the `extra` component (every field
but `center`). -/
theorem cluster_frame {α : Type} :
    (∀ (data : List (List ℚ)) (clusters : List (Cluster α))
        (metric : List ℚ → List ℚ → ℚ)
        (update : List (List ℚ) → Cluster α → Cluster α) (out : List (Cluster α)),
      kmeansIteration data clusters metric update = Except.ok out →
      ∀ i, ∀ hi : i < clusters.length, ∀ ho : i < out.length,
        data.filter (fun datum =>
          assignIdx metric datum (clusters.map Cluster.center) == i) = [] →
        out.get ⟨i, ho⟩ = clusters.get ⟨i, hi⟩) ∧
    (∀ (data : List (List ℚ)) (cluster : Cluster α) (weight : ℚ) (out : Cluster α),
      updateMean data cluster weight = Except.ok out → out.extra = cluster.extra) := by
  constructor
  · intro data clusters metric update out hok i hi ho hempty
    have hd0 : ¬data.length = 0 := by
      intro h0
      unfold kmeansIteration at hok
      rw [if_pos h0] at hok
      cases hok
    have hc0 : ¬clusters.length = 0 := by
      intro h0
      unfold kmeansIteration at hok
      rw [if_neg hd0, if_pos h0] at hok
      cases hok
    obtain ⟨out2, hres, hlen, hpos⟩ := kmeans_eq data clusters metric update hd0 hc0
    rw [hok] at hres
    injection hres with hres
    subst hres
    rw [hpos i hi ho, if_pos hempty]
  · intro data cluster weight out h
    exact updateMean_extra data cluster weight out h

/-- Witness for C3 at a concrete instance: one datum, two clusters. -/
theorem kmeansIteration_spec_witness :
    ∃ out, kmeansIteration [[0]] [Cluster.mk [3] 5, Cluster.mk [10] 7]
        (fun _ b => b.getD 0 0) (fun bucket c => Cluster.mk (bucket.headD []) c.extra)
        = Except.ok out ∧
      out.length = ([Cluster.mk [3] 5, Cluster.mk [10] 7] : List (Cluster Nat)).length ∧
      (∀ datum ∈ [[(0 : ℚ)]], IsFirstMin
        (distList datum [Cluster.mk [3] 5, Cluster.mk [10] 7] (fun _ b => b.getD 0 0))
        (assignIdx (fun _ b => b.getD 0 0) datum
          (([Cluster.mk [3] 5, Cluster.mk [10] 7] : List (Cluster Nat)).map Cluster.center))) ∧
      ∀ i, ∀ hi : i < ([Cluster.mk [3] 5, Cluster.mk [10] 7] : List (Cluster Nat)).length,
        ∀ ho : i < out.length,
        out.get ⟨i, ho⟩ =
          (if ([[(0 : ℚ)]]).filter (fun datum =>
              assignIdx (fun _ b => b.getD 0 0) datum
                (([Cluster.mk [3] 5, Cluster.mk [10] 7] : List (Cluster Nat)).map Cluster.center) == i) = []
           then ([Cluster.mk [3] 5, Cluster.mk [10] 7] : List (Cluster Nat)).get ⟨i, hi⟩
           else (fun bucket c => Cluster.mk (bucket.headD []) c.extra)
             (([[(0 : ℚ)]]).filter (fun datum =>
               assignIdx (fun _ b => b.getD 0 0) datum
                 (([Cluster.mk [3] 5, Cluster.mk [10] 7] : List (Cluster Nat)).map Cluster.center) == i))
             (([Cluster.mk [3] 5, Cluster.mk [10] 7] : List (Cluster Nat)).get ⟨i, hi⟩)) :=
  kmeansIteration_spec [[0]] [Cluster.mk [3] 5, Cluster.mk [10] 7]
    (fun _ b => b.getD 0 0) (fun bucket c => Cluster.mk (bucket.headD []) c.extra)
    (by simp) (by simp)

/-- Witness for C5: the second cluster of a concrete run attracts no data and
is returned identically; a concrete `updateMean` keeps `extra` unchanged. -/
theorem cluster_frame_witness :
    (([Cluster.mk [0] 5, Cluster.mk [10] 7] : List (Cluster Nat)).get ⟨1, by norm_num⟩ =
      ([Cluster.mk [3] 5, Cluster.mk [10] 7] : List (Cluster Nat)).get ⟨1, by norm_num⟩) ∧
    ({ Cluster.mk ([9] : List ℚ) 3 with center := meanCenter [[2]] [9] 0 }).extra =
      (Cluster.mk ([9] : List ℚ) 3).extra := by
  constructor
  · exact cluster_frame.1 [[0]] [Cluster.mk [3] 5, Cluster.mk [10] 7]
      (fun _ b => b.getD 0 0) (fun bucket c => Cluster.mk (bucket.headD []) c.extra)
      [Cluster.mk [0] 5, Cluster.mk [10] 7]
      rfl 1 (by norm_num) (by norm_num) (by decide)
  · exact cluster_frame.2 [[2]] (Cluster.mk [9] 3) 0 _
      (updateMean_ok_shape [[2]] (Cluster.mk [9] 3) 0 (by simp) (by decide) (by norm_num))

theorem dedup_const {γ : Type} [DecidableEq γ] (d : γ) :
    ∀ l : List γ, l ≠ [] → (∀ x ∈ l, x = d) → l.dedup = [d] := by
  intro l
  induction l with
  | nil =>
    intro h _
    exact absurd rfl h
  | cons x rest ih =>
    intro _ hall
    have hx : x = d := hall x (by simp)
    cases rest with
    | nil =>
      rw [hx]
      rfl
    | cons y t =>
      have hy : y = d := hall y (by simp)
      have hr : (y :: t).dedup = [d] :=
        ih (by simp) (fun z hz => hall z (by simp [hz]))
      have hmem : x ∈ y :: t := by
        rw [hx, ← hy]
        exact List.mem_cons_self y t
      rw [List.dedup_cons_of_mem hmem, hr]

/-- Claim C8: with `k > 0`, at least `k` unique vectors all of one dimension,
a permutation `shuffle` and a constructor that stores the given vector as the
center, `randomSeeds` returns exactly `k` clusters, with pairwise-distinct
centers drawn from the unique vectors of the dataset, built as
`Constructor(i, vector)` over the zero-based enumeration of the first `k`
shuffled unique vectors. -/
theorem randomSeeds_spec {α : Type} (data : List (List ℚ)) (k : Int)
    (shuffle : List (List ℚ) → List (List ℚ)) (newCluster : Nat → List ℚ → Cluster α)
    (hk : 0 < k)
    (hkle : k ≤ (data.dedup.length : Int))
    (hdim : ∃ d, ∀ v ∈ data, v.length = d)
    (hshuf : (shuffle data.dedup).Perm data.dedup)
    (hcon : ∀ i v, (newCluster i v).center = v) :
    ∃ out, randomSeeds data k shuffle newCluster = Except.ok out ∧
      (out.length : Int) = k ∧
      (out.map Cluster.center).Nodup ∧
      (∀ c ∈ out, c.center ∈ data.dedup) ∧
      out = ((shuffle data.dedup).take k.toNat).enum.map fun p => newCluster p.1 p.2 := by
  obtain ⟨d, hd⟩ := hdim
  have hune : data.dedup ≠ [] := by
    intro hnil
    rw [hnil] at hkle
    simp at hkle
    omega
  have hsizes : ((data.dedup.map List.length).dedup).length = 1 := by
    rw [dedup_const d (data.dedup.map List.length)
      (by simpa [List.map_eq_nil_iff] using hune)
      (by
        intro z hz
        obtain ⟨v, hv, rfl⟩ := List.mem_map.mp hz
        exact hd v (List.mem_dedup.mp hv))]
    rfl
  have hres : randomSeeds data k shuffle newCluster =
      Except.ok (((shuffle data.dedup).take k.toNat).enum.map
        fun p => newCluster p.1 p.2) := by
    unfold randomSeeds
    rw [if_neg (by omega), if_neg (by omega), if_neg (by omega)]
  have hshuflen : (shuffle data.dedup).length = data.dedup.length :=
    hshuf.length_eq
  have htakelen : ((shuffle data.dedup).take k.toNat).length = k.toNat := by
    rw [List.length_take, hshuflen]
    omega
  have hmapcen : (((shuffle data.dedup).take k.toNat).enum.map
      fun p => newCluster p.1 p.2).map Cluster.center =
      (shuffle data.dedup).take k.toNat := by
    rw [List.map_map]
    rw [show (Cluster.center ∘ fun p : Nat × List ℚ => newCluster p.1 p.2) =
        fun p : Nat × List ℚ => (newCluster p.1 p.2).center from rfl]
    rw [List.map_congr_left (fun p _ => hcon p.1 p.2)]
    exact List.enum_map_snd _
  refine ⟨_, hres, ?_, ?_, ?_, rfl⟩
  · rw [List.length_map, List.enum_length, htakelen]
    omega
  · rw [hmapcen]
    exact List.Nodup.sublist (List.take_sublist _ _)
      (hshuf.nodup_iff.mpr (List.nodup_dedup data))
  · intro c hc
    have hcm : c.center ∈ (((shuffle data.dedup).take k.toNat).enum.map
        fun p => newCluster p.1 p.2).map Cluster.center :=
      List.mem_map_of_mem Cluster.center hc
    rw [hmapcen] at hcm
    exact hshuf.mem_iff.mp (List.mem_of_mem_take hcm)

/-- Claim C9: `randomSeeds` validates in order — `k <= 0` is rejected first
with the invalid-argument error, then fewer unique points than `k` with the
insufficient-data error, then unequal vector dimensions with the
dimension-mismatch error; in every case the result is this error for every
constructor (so no constructor call is consulted) and no value is
returned. -/
theorem randomSeeds_errors {α : Type} (data : List (List ℚ)) (k : Int)
    (shuffle : List (List ℚ) → List (List ℚ))
    (newCluster : Nat → List ℚ → Cluster α) :
    (k ≤ 0 → randomSeeds data k shuffle newCluster =
      Except.error "k must be greater than zero") ∧
    (0 < k → (data.dedup.length : Int) < k →
      randomSeeds data k shuffle newCluster =
        Except.error "not enough unique points") ∧
    (0 < k → k ≤ (data.dedup.length : Int) →
      ((data.dedup.map List.length).dedup).length ≠ 1 →
      randomSeeds data k shuffle newCluster =
        Except.error "dimensions of vectors do not match") := by
  refine ⟨?_, ?_, ?_⟩
  · intro h1
    unfold randomSeeds
    rw [if_pos h1]
  · intro h1 h2
    unfold randomSeeds
    rw [if_neg (by omega), if_pos h2]
  · intro h1 h2 h3
    unfold randomSeeds
    rw [if_neg (by omega), if_neg (by omega), if_pos h3]

/-- Witness for C8: two distinct one-dimensional vectors, `k = 2`, identity
shuffle, a constructor storing the vector as center. -/
theorem randomSeeds_spec_witness :
    ∃ out, randomSeeds [[0], [1]] 2 id (fun i v => Cluster.mk v i) = Except.ok out ∧
      (out.length : Int) = 2 ∧
      (out.map Cluster.center).Nodup ∧
      (∀ c ∈ out, c.center ∈ ([[0], [1]] : List (List ℚ)).dedup) ∧
      out = ((id (([[0], [1]] : List (List ℚ)).dedup)).take (2 : Int).toNat).enum.map
        fun p => (fun i v => Cluster.mk v i) p.1 p.2 :=
  randomSeeds_spec [[0], [1]] 2 id (fun i v => Cluster.mk v i)
    (by norm_num) (by decide) ⟨1, by decide⟩ (List.Perm.refl _) (fun i v => rfl)

/-- Witness for C9: each of the three checks firing on a concrete input, in
the documented order. -/
theorem randomSeeds_errors_witness :
    randomSeeds [[0]] (-1) id (fun i v => Cluster.mk v i) =
        Except.error "k must be greater than zero" ∧
      randomSeeds [[0]] 2 id (fun i v => Cluster.mk v i) =
        Except.error "not enough unique points" ∧
      randomSeeds [[0], [1, 1]] 2 id (fun i v => Cluster.mk v i) =
        Except.error "dimensions of vectors do not match" :=
  ⟨(randomSeeds_errors [[0]] (-1) id _).1 (by norm_num),
   (randomSeeds_errors [[0]] 2 id _).2.1 (by norm_num) (by decide),
   (randomSeeds_errors [[0], [1, 1]] 2 id _).2.2 (by norm_num) (by decide) (by decide)⟩

end ModelCluster
